import Mathlib

/-!
Verification development for the distil-fuzzy-join repository
(src/fuzzyjoin/fuzzy_join.py).

The development shallowly embeds the match resolvers and the join engine of
`FuzzyJoinPrimitive`.  Design choices of the embedding:

* Machine floats are modelled as exact rationals (`ℚ`); `np.datetime64`
  timestamps and `np.timedelta64` durations are likewise modelled as
  rationals (a fixed-epoch offset / a duration in fixed units).
* Table cell values are a closed sum `Cell` of the kinds the code
  manipulates: strings, numbers, parsed timestamps and the null value
  (`None` / `NaN`).
* A pandas `DataFrame` is a `Table`: a column-name list, a row-index list
  (one index entry per row) and a row list.  Column semantic-type metadata
  (read by the type selector) is carried in `colTypes`.
* Fallible pandas operations (`drop`, `set_index`, `sort_values` on a
  missing column, date parsing) return `Except PdError`.
* The external collaborators — fuzzywuzzy's `process.extractOne` scorer and
  `dateutil.parser.parse` — are parameters (`score`, `parse`) of the
  functions that call them; everything else is translated from the source.
* `fuzzy_join.py` mutates its `left_df` argument in place (it assigns
  `left_df.index` and, in numeric mode, `left_df[left_col]`).  The join
  functions therefore return the final state of the left table alongside
  the joined table, making the frame effect explicit.
-/

namespace FuzzyJoin

/-- Scalar cell values as manipulated by fuzzy_join.py: strings, numbers
(floats, modelled as exact rationals), parsed `np.datetime64` timestamps,
and the null value (`None` / `NaN`). -/
inductive Cell where
  | str (s : String)
  | num (q : ℚ)
  | dt (t : ℚ)
  | null
deriving DecidableEq, Repr

/-- Errors surfaced by the pandas operations the join functions use. -/
inductive PdError where
  | keyError (col : String)
  | parseError
deriving DecidableEq, Repr

/-! ## Numeric match resolver (`_numeric_fuzzy_match`, lines 260-275)

The source reads:

    inv_accuracy = 1.0 - accuracy
    min_distance = float("inf")
    min_val = None
    tolerance = float(match) * inv_accuracy
    for i, num in enumerate(choices):
        distance = abs(match - num)
        if distance <= tolerance and distance <= min_distance:
            min_diff = distance
            min_val = num
    return min_val

Note that the accepting branch assigns `min_diff`, a variable that is never
read, while `min_distance` — initialised to infinity and tested on every
iteration — is never reassigned.  The embedding reproduces this exactly:
the `minDistance` accumulator is threaded through the loop unchanged.
`float("inf")` is modelled as `⊤ : WithTop ℚ`. -/

def numericFuzzyMatchGo (m tolerance : ℚ) :
    List ℚ → WithTop ℚ → Option ℚ → Option ℚ
  | [], _, minVal => minVal
  | num :: rest, minDistance, minVal =>
    let distance := |m - num|
    if distance ≤ tolerance ∧ (distance : WithTop ℚ) ≤ minDistance then
      -- the source assigns the dead variable min_diff here; min_distance
      -- is left unchanged
      numericFuzzyMatchGo m tolerance rest minDistance (some num)
    else
      numericFuzzyMatchGo m tolerance rest minDistance minVal

/-- Translation of `_numeric_fuzzy_match`.  `tolerance` is
`float(match) * (1.0 - accuracy)` — the signed left value, not its
absolute value. -/
def numericFuzzyMatch (m : ℚ) (choices : List ℚ) (accuracy : ℚ) : Option ℚ :=
  let invAccuracy := 1 - accuracy
  let tolerance := m * invAccuracy
  numericFuzzyMatchGo m tolerance choices ⊤ none

/-! ## Datetime match resolver (`_datetime_fuzzy_match`, lines 343-355) -/

/-- The `min_distance is None or distance < min_distance` test of the
datetime resolver's accept condition. -/
def isNewMin (distance : ℚ) : Option ℚ → Bool
  | none => true
  | some d => decide (distance < d)

def datetimeFuzzyMatchGo (m tolerance : ℚ) :
    List ℚ → Option ℚ → Option ℚ → Option ℚ
  | [], _, minDate => minDate
  | date :: rest, minDistance, minDate =>
    let distance := |m - date|
    if decide (distance ≤ tolerance) && isNewMin distance minDistance then
      datetimeFuzzyMatchGo m tolerance rest (some distance) (some date)
    else
      datetimeFuzzyMatchGo m tolerance rest minDistance minDate

/-- Translation of `_datetime_fuzzy_match`: `min_distance` starts as `None`
and both accumulators are updated on a strictly smaller distance within
tolerance. -/
def datetimeFuzzyMatch (m : ℚ) (choices : List ℚ) (tolerance : ℚ) : Option ℚ :=
  datetimeFuzzyMatchGo m tolerance choices none none

/-! ## String match resolver (`_string_fuzzy_match`, lines 214-223)

`process.extractOne` of fuzzywuzzy is an external collaborator: it scans
the choices and keeps the highest-scoring one, an earlier choice winning
over a later equal-scoring one.  The similarity scorer itself is a
parameter `score` of the embedding. -/

def extractOneGo (score : Cell → Cell → ℚ) (m : Cell) :
    List Cell → Cell × ℚ → Cell × ℚ
  | [], best => best
  | c :: rest, best =>
    let s := score m c
    extractOneGo score m rest (if best.2 < s then (c, s) else best)

/-- Model of `process.extractOne(match, choices)`: the first
highest-scoring choice together with its score, or `none` for an empty
choice list (where the library returns `None` and the caller's tuple
unpacking raises; no join reaches that state with the candidate sets the
claims consider). -/
def extractOne (score : Cell → Cell → ℚ) (m : Cell) :
    List Cell → Option (Cell × ℚ)
  | [] => none
  | c :: rest => some (extractOneGo score m rest (c, score m c))

/-- Translation of `_string_fuzzy_match`: accept the extracted choice
exactly when its score reaches `min_score`. -/
def stringFuzzyMatch (score : Cell → Cell → ℚ) (m : Cell)
    (choices : List Cell) (minScore : ℚ) : Option Cell :=
  match extractOne score m choices with
  | none => none
  | some (choice, s) => if minScore ≤ s then some choice else none

/-! ## Time range (`_compute_time_range`, lines 357-369) -/

/-- Model of `np.amin` (which raises on an empty array; the claims only
use nonempty value lists, and the fallback value 0 is never relied on). -/
def npAmin : List ℚ → ℚ
  | [] => 0
  | x :: xs => xs.foldl min x

/-- Model of `np.amax` (same empty-array caveat as `npAmin`). -/
def npAmax : List ℚ → ℚ
  | [] => 0
  | x :: xs => xs.foldl max x

/-- Translation of `_compute_time_range`: the smaller of the two sides'
`max - min` ranges. -/
def computeTimeRange (left right : List ℚ) : ℚ :=
  let leftDelta := npAmax left - npAmin left
  let rightDelta := npAmax right - npAmin right
  min leftDelta rightDelta

/-- The tolerance expression of `_join_datetime_col` (line 324):
`(1.0 - accuracy) * cls._compute_time_range(left_keys, choices)`. -/
def timeTolerance (accuracy : ℚ) (leftKeys choices : List ℚ) : ℚ :=
  (1 - accuracy) * computeTimeRange leftKeys choices

/-! ## Properties of the numeric resolver -/

theorem numericFuzzyMatchGo_some (m tolerance : ℚ) (choices : List ℚ) :
    ∀ (minDistance : WithTop ℚ) (minVal : Option ℚ) (R : ℚ),
    numericFuzzyMatchGo m tolerance choices minDistance minVal = some R →
    minVal = some R ∨ (R ∈ choices ∧ |m - R| ≤ tolerance) := by
  induction choices with
  | nil => intro md mv R h; exact Or.inl h
  | cons num rest ih =>
    intro md mv R h
    simp only [numericFuzzyMatchGo] at h
    split at h
    case isTrue hc =>
      rcases ih md (some num) R h with h1 | h1
      · refine Or.inr ⟨?_, ?_⟩
        · simp [Option.some.injEq] at h1
          simp [h1]
        · have hr : num = R := by simpa using h1
          subst hr; exact hc.1
      · exact Or.inr ⟨List.mem_cons_of_mem _ h1.1, h1.2⟩
    case isFalse hc =>
      rcases ih md mv R h with h1 | h1
      · exact Or.inl h1
      · exact Or.inr ⟨List.mem_cons_of_mem _ h1.1, h1.2⟩

theorem numericFuzzyMatch_some (m : ℚ) (choices : List ℚ) (accuracy : ℚ)
    (R : ℚ) (h : numericFuzzyMatch m choices accuracy = some R) :
    R ∈ choices ∧ |m - R| ≤ m * (1 - accuracy) := by
  rcases numericFuzzyMatchGo_some m (m * (1 - accuracy)) choices ⊤ none R h with h1 | h1
  · exact absurd h1 (by simp)
  · exact h1

/-- C3: for every left value L (negative and zero included), every
candidate list and every accuracy in (0,1], the numeric resolver returns a
candidate R only if |L − R| ≤ (1 − accuracy)·|L|; for L = 0 only R = 0 can
be returned; and at L = 5, accuracy = 0.9 a candidate at distance exactly
0.5 is matched while one at distance 0.51 is not. -/
theorem C3_numeric_tolerance (L accuracy : ℚ) (choices : List ℚ)
    (hacc0 : 0 < accuracy) (hacc1 : accuracy ≤ 1) :
    (∀ R, numericFuzzyMatch L choices accuracy = some R →
      |L - R| ≤ (1 - accuracy) * |L|) ∧
    (L = 0 → ∀ R, numericFuzzyMatch L choices accuracy = some R → R = 0) ∧
    numericFuzzyMatch 5 [9/2] (9/10) = some (9/2) ∧
    numericFuzzyMatch 5 [449/100] (9/10) = none := by
  have key : ∀ R, numericFuzzyMatch L choices accuracy = some R →
      |L - R| ≤ (1 - accuracy) * |L| := by
    intro R h
    have h1 := (numericFuzzyMatch_some L choices accuracy R h).2
    have hL : L ≤ |L| := le_abs_self L
    have hinv : 0 ≤ 1 - accuracy := by linarith
    calc |L - R| ≤ L * (1 - accuracy) := h1
      _ ≤ |L| * (1 - accuracy) := by
          exact mul_le_mul_of_nonneg_right hL hinv
      _ = (1 - accuracy) * |L| := mul_comm _ _
  refine ⟨key, ?_, ?_, ?_⟩
  · intro hL R h
    have := key R h
    rw [hL] at this
    simp only [abs_zero, mul_zero, zero_sub, abs_neg] at this
    have := abs_nonneg R
    have : |R| = 0 := le_antisymm (by linarith) (abs_nonneg R)
    exact abs_eq_zero.mp this
  · norm_num [numericFuzzyMatch, numericFuzzyMatchGo, abs_of_nonneg,
      abs_of_nonpos]
  · norm_num [numericFuzzyMatch, numericFuzzyMatchGo, abs_of_nonneg,
      abs_of_nonpos]

/-- C3 witness: the general theorem instantiated at L = 5,
accuracy = 9/10, choices = [9/2]. -/
theorem C3_numeric_tolerance_witness :
    (0 < (9:ℚ)/10 ∧ (9:ℚ)/10 ≤ 1) ∧
    ((∀ R, numericFuzzyMatch 5 [9/2] (9/10) = some R →
        |(5:ℚ) - R| ≤ (1 - 9/10) * |(5:ℚ)|) ∧
     ((5:ℚ) = 0 → ∀ R, numericFuzzyMatch 5 [9/2] (9/10) = some R → R = 0) ∧
     numericFuzzyMatch 5 [9/2] (9/10) = some (9/2) ∧
     numericFuzzyMatch 5 [449/100] (9/10) = none) :=
  ⟨⟨by norm_num, by norm_num⟩,
    C3_numeric_tolerance 5 (9/10) [9/2] (by norm_num) (by norm_num)⟩

/-- C1: the claim says the numeric resolver tracks a running minimum and
returns a minimal-distance candidate within tolerance.  The code means to
do that (it initialises min_distance to infinity and tests every distance
against it) but the accepting branch assigns the never-read variable
min_diff instead of min_distance, so the minimum is never updated and the
last candidate within tolerance is returned: at match = 10,
choices = [10, 11], accuracy = 0.9 the code returns 11 although the
candidate 10 is within tolerance at strictly smaller distance. -/
theorem C1_numeric_running_minimum_bug :
    numericFuzzyMatch 10 [10, 11] (9/10) = some 11 ∧
    (10:ℚ) ∈ [(10:ℚ), 11] ∧
    |(10:ℚ) - 10| ≤ (10:ℚ) * (1 - 9/10) ∧
    |(10:ℚ) - 10| < |(10:ℚ) - 11| := by
  refine ⟨?_, by norm_num, by norm_num, by norm_num⟩
  norm_num [numericFuzzyMatch, numericFuzzyMatchGo, abs_of_nonneg,
    abs_of_nonpos]

/-! ## Properties of the datetime resolver -/

theorem isNewMin_none (d : ℚ) : isNewMin d none = true := rfl

theorem isNewMin_some (d e : ℚ) : isNewMin d (some e) = decide (d < e) := rfl

theorem dtmGo_cons_accept (m tol date : ℚ) (rest : List ℚ)
    (md mv : Option ℚ) (h1 : |m - date| ≤ tol)
    (h2 : isNewMin |m - date| md = true) :
    datetimeFuzzyMatchGo m tol (date :: rest) md mv =
      datetimeFuzzyMatchGo m tol rest (some |m - date|) (some date) := by
  simp only [datetimeFuzzyMatchGo]
  rw [if_pos]
  simp [h1, h2]

theorem dtmGo_cons_skip (m tol date : ℚ) (rest : List ℚ) (md mv : Option ℚ)
    (h : ¬(|m - date| ≤ tol) ∨ isNewMin |m - date| md = false) :
    datetimeFuzzyMatchGo m tol (date :: rest) md mv =
      datetimeFuzzyMatchGo m tol rest md mv := by
  simp only [datetimeFuzzyMatchGo]
  rw [if_neg]
  rcases h with h | h <;> simp [h]

theorem dtmGo_some_state (m tol : ℚ) (rest : List ℚ) :
    ∀ r0 : ℚ, |m - r0| ≤ tol →
    ∃ r, datetimeFuzzyMatchGo m tol rest (some |m - r0|) (some r0) = some r ∧
      |m - r| ≤ tol ∧
      ((r = r0 ∧ ∀ c ∈ rest, |m - c| ≤ tol → |m - r0| ≤ |m - c|) ∨
       (∃ pre post, rest = pre ++ r :: post ∧ |m - r| < |m - r0| ∧
         (∀ c ∈ pre, |m - c| ≤ tol → |m - r| < |m - c|) ∧
         (∀ c ∈ post, |m - c| ≤ tol → |m - r| ≤ |m - c|))) := by
  induction rest with
  | nil =>
    intro r0 h0
    exact ⟨r0, rfl, h0, Or.inl ⟨rfl, by simp⟩⟩
  | cons c cs ih =>
    intro r0 h0
    by_cases h1 : |m - c| ≤ tol
    · by_cases h2 : |m - c| < |m - r0|
      · rw [dtmGo_cons_accept m tol c cs _ _ h1
          (by rw [isNewMin_some]; exact decide_eq_true h2)]
        obtain ⟨r, hr, hrtol, hcases⟩ := ih c h1
        refine ⟨r, hr, hrtol, Or.inr ?_⟩
        rcases hcases with ⟨hrc, hall⟩ | ⟨pre, post, hsplit, hlt, hpre, hpost⟩
        · subst hrc
          exact ⟨[], cs, rfl, h2, by simp, hall⟩
        · refine ⟨c :: pre, post, by rw [hsplit]; rfl, hlt.trans h2, ?_, hpost⟩
          intro x hx hxtol
          rcases List.mem_cons.mp hx with hxc | hxpre
          · subst hxc; exact hlt
          · exact hpre x hxpre hxtol
      · rw [dtmGo_cons_skip m tol c cs _ _
          (Or.inr (by rw [isNewMin_some]; exact decide_eq_false h2))]
        obtain ⟨r, hr, hrtol, hcases⟩ := ih r0 h0
        refine ⟨r, hr, hrtol, ?_⟩
        rcases hcases with ⟨hrc, hall⟩ | ⟨pre, post, hsplit, hlt, hpre, hpost⟩
        · refine Or.inl ⟨hrc, ?_⟩
          intro x hx hxtol
          rcases List.mem_cons.mp hx with hxc | hxcs
          · subst hxc; linarith [not_lt.mp h2]
          · exact hall x hxcs hxtol
        · refine Or.inr ⟨c :: pre, post, by rw [hsplit]; rfl, hlt, ?_, hpost⟩
          intro x hx hxtol
          rcases List.mem_cons.mp hx with hxc | hxpre
          · subst hxc; linarith [not_lt.mp h2]
          · exact hpre x hxpre hxtol
    · rw [dtmGo_cons_skip m tol c cs _ _ (Or.inl h1)]
      obtain ⟨r, hr, hrtol, hcases⟩ := ih r0 h0
      refine ⟨r, hr, hrtol, ?_⟩
      rcases hcases with ⟨hrc, hall⟩ | ⟨pre, post, hsplit, hlt, hpre, hpost⟩
      · refine Or.inl ⟨hrc, ?_⟩
        intro x hx hxtol
        rcases List.mem_cons.mp hx with hxc | hxcs
        · subst hxc; exact absurd hxtol h1
        · exact hall x hxcs hxtol
      · refine Or.inr ⟨c :: pre, post, by rw [hsplit]; rfl, hlt, ?_, hpost⟩
        intro x hx hxtol
        rcases List.mem_cons.mp hx with hxc | hxpre
        · subst hxc; exact absurd hxtol h1
        · exact hpre x hxpre hxtol

theorem dtmGo_none_start (m tol : ℚ) (choices : List ℚ) :
    (datetimeFuzzyMatchGo m tol choices none none = none ∧
      ∀ c ∈ choices, ¬(|m - c| ≤ tol)) ∨
    (∃ r pre post, datetimeFuzzyMatchGo m tol choices none none = some r ∧
      choices = pre ++ r :: post ∧ |m - r| ≤ tol ∧
      (∀ c ∈ pre, |m - c| ≤ tol → |m - r| < |m - c|) ∧
      (∀ c ∈ post, |m - c| ≤ tol → |m - r| ≤ |m - c|)) := by
  induction choices with
  | nil => exact Or.inl ⟨rfl, by simp⟩
  | cons c cs ih =>
    by_cases h1 : |m - c| ≤ tol
    · rw [dtmGo_cons_accept m tol c cs _ _ h1 (isNewMin_none _)]
      obtain ⟨r, hr, hrtol, hcases⟩ := dtmGo_some_state m tol cs c h1
      refine Or.inr ?_
      rcases hcases with ⟨hrc, hall⟩ | ⟨pre, post, hsplit, hlt, hpre, hpost⟩
      · subst hrc
        exact ⟨r, [], cs, hr, rfl, hrtol, by simp, hall⟩
      · refine ⟨r, c :: pre, post, hr, by rw [hsplit]; rfl, hrtol, ?_, hpost⟩
        intro x hx hxtol
        rcases List.mem_cons.mp hx with hxc | hxpre
        · subst hxc; exact hlt
        · exact hpre x hxpre hxtol
    · rw [dtmGo_cons_skip m tol c cs _ _ (Or.inl h1)]
      rcases ih with ⟨hnone, hall⟩ | ⟨r, pre, post, hr, hsplit, hrtol, hpre, hpost⟩
      · refine Or.inl ⟨hnone, ?_⟩
        intro x hx
        rcases List.mem_cons.mp hx with hxc | hxcs
        · subst hxc; exact h1
        · exact hall x hxcs
      · refine Or.inr ⟨r, c :: pre, post, hr, by rw [hsplit]; rfl, hrtol, ?_, hpost⟩
        intro x hx hxtol
        rcases List.mem_cons.mp hx with hxc | hxpre
        · subst hxc; exact absurd hxtol h1
        · exact hpre x hxpre hxtol

/-- C6: for every left timestamp, candidate list and non-negative
tolerance, the datetime resolver returns none exactly when no candidate is
within tolerance (reporting no-match rather than erroring), and a returned
candidate is within tolerance, of minimal distance among the candidates
within tolerance, and is the first candidate attaining that distance
(every earlier within-tolerance candidate is strictly farther), so the
first-encountered candidate wins on exact ties. -/
theorem C6_datetime_resolver (m tol : ℚ) (choices : List ℚ) (htol : 0 ≤ tol) :
    (datetimeFuzzyMatch m choices tol = none ↔
      ∀ c ∈ choices, ¬(|m - c| ≤ tol)) ∧
    ∀ r, datetimeFuzzyMatch m choices tol = some r →
      |m - r| ≤ tol ∧
      (∀ c ∈ choices, |m - c| ≤ tol → |m - r| ≤ |m - c|) ∧
      ∃ pre post, choices = pre ++ r :: post ∧
        ∀ c ∈ pre, |m - c| ≤ tol → |m - r| < |m - c| := by
  have master := dtmGo_none_start m tol choices
  unfold datetimeFuzzyMatch
  constructor
  · constructor
    · intro hnone
      rcases master with ⟨_, hall⟩ | ⟨r, _, _, hr, _, _, _, _⟩
      · exact hall
      · rw [hnone] at hr; exact absurd hr (by simp)
    · intro hall
      rcases master with ⟨hnone, _⟩ | ⟨r, pre, post, hr, hsplit, hrtol, _, _⟩
      · exact hnone
      · exfalso
        exact hall r (by rw [hsplit]; exact List.mem_append_right _ (List.mem_cons_self _ _)) hrtol
  · intro r hr
    rcases master with ⟨hnone, _⟩ | ⟨r', pre, post, hr', hsplit, hrtol, hpre, hpost⟩
    · rw [hnone] at hr; exact absurd hr (by simp)
    · rw [hr'] at hr
      have hrr : r' = r := by simpa using hr
      subst hrr
      refine ⟨hrtol, ?_, pre, post, hsplit, hpre⟩
      intro c hc hctol
      rw [hsplit] at hc
      rcases List.mem_append.mp hc with hcpre | hcpost
      · exact le_of_lt (hpre c hcpre hctol)
      · rcases List.mem_cons.mp hcpost with hcr | hcpost
        · subst hcr; exact le_refl _
        · exact hpost c hcpost hctol

/-- C6 witness: the theorem applied at m = 0, tolerance = 1,
choices = [2, 1/2, 1/2]. -/
theorem C6_datetime_resolver_witness :
    (0 : ℚ) ≤ 1 ∧
    ((datetimeFuzzyMatch 0 [2, 1/2, 1/2] 1 = none ↔
        ∀ c ∈ [(2:ℚ), 1/2, 1/2], ¬(|(0:ℚ) - c| ≤ 1)) ∧
      ∀ r, datetimeFuzzyMatch 0 [2, 1/2, 1/2] 1 = some r →
        |(0:ℚ) - r| ≤ 1 ∧
        (∀ c ∈ [(2:ℚ), 1/2, 1/2], |(0:ℚ) - c| ≤ 1 → |(0:ℚ) - r| ≤ |(0:ℚ) - c|) ∧
        ∃ pre post, [(2:ℚ), 1/2, 1/2] = pre ++ r :: post ∧
          ∀ c ∈ pre, |(0:ℚ) - c| ≤ 1 → |(0:ℚ) - r| < |(0:ℚ) - c|) :=
  ⟨by norm_num, C6_datetime_resolver 0 1 [2, 1/2, 1/2] (by norm_num)⟩

/-! ## Properties of the datetime tolerance -/

/-- C7: the datetime tolerance computed by `_join_datetime_col` equals
(1 − accuracy) times the minimum of the two sides' max−min ranges, and
doubling both ranges while holding accuracy fixed doubles the tolerance. -/
theorem C7_datetime_tolerance (accuracy : ℚ) (l r l2 r2 : List ℚ)
    (hl : l ≠ []) (hr : r ≠ [])
    (hL : npAmax l2 - npAmin l2 = 2 * (npAmax l - npAmin l))
    (hR : npAmax r2 - npAmin r2 = 2 * (npAmax r - npAmin r)) :
    timeTolerance accuracy l r =
      (1 - accuracy) * min (npAmax l - npAmin l) (npAmax r - npAmin r) ∧
    timeTolerance accuracy l2 r2 = 2 * timeTolerance accuracy l r := by
  constructor
  · rfl
  · unfold timeTolerance computeTimeRange
    rw [hL, hR]
    rcases le_total (npAmax l - npAmin l) (npAmax r - npAmin r) with h | h
    · rw [min_eq_left h, min_eq_left (by linarith)]
      ring
    · rw [min_eq_right h, min_eq_right (by linarith)]
      ring

/-- C7 witness: the theorem applied at accuracy = 1/2 with left values
[0, 1] and right values [0, 3], doubled to [0, 2] and [0, 6]. -/
theorem C7_datetime_tolerance_witness :
    (([0, 1] : List ℚ) ≠ [] ∧ ([0, 3] : List ℚ) ≠ [] ∧
      npAmax [0, 2] - npAmin [0, 2] = 2 * (npAmax [0, 1] - npAmin [0, 1]) ∧
      npAmax [0, 6] - npAmin [0, 6] = 2 * (npAmax [0, 3] - npAmin [0, 3])) ∧
    (timeTolerance (1/2) [0, 1] [0, 3] =
        (1 - 1/2) * min (npAmax [0, 1] - npAmin [0, 1])
          (npAmax [0, 3] - npAmin [0, 3]) ∧
      timeTolerance (1/2) [0, 2] [0, 6] = 2 * timeTolerance (1/2) [0, 1] [0, 3]) :=
  ⟨⟨by simp, by simp,
      by norm_num [npAmax, npAmin],
      by norm_num [npAmax, npAmin]⟩,
    C7_datetime_tolerance (1/2) [0, 1] [0, 3] [0, 2] [0, 6]
      (by simp) (by simp)
      (by norm_num [npAmax, npAmin])
      (by norm_num [npAmax, npAmin])⟩

/-! ## Properties of the string resolver -/

theorem extractOneGo_spec (score : Cell → Cell → ℚ) (m : Cell)
    (rest : List Cell) :
    ∀ best : Cell × ℚ, best.2 = score m best.1 →
    (extractOneGo score m rest best).2 =
      score m (extractOneGo score m rest best).1 ∧
    ((extractOneGo score m rest best).1 = best.1 ∨
      (extractOneGo score m rest best).1 ∈ rest) := by
  induction rest with
  | nil => intro best hbest; exact ⟨hbest, Or.inl rfl⟩
  | cons c cs ih =>
    intro best hbest
    simp only [extractOneGo]
    have hb2 : (if best.2 < score m c then (c, score m c) else best).2 =
        score m (if best.2 < score m c then (c, score m c) else best).1 := by
      split
      · rfl
      · exact hbest
    obtain ⟨h1, h2⟩ := ih _ hb2
    refine ⟨h1, ?_⟩
    rcases h2 with h2 | h2
    · rw [h2]
      split
      · exact Or.inr (List.mem_cons_self _ _)
      · exact Or.inl rfl
    · exact Or.inr (List.mem_cons_of_mem _ h2)

/-- C9: with accuracy 1.0 in string mode (threshold accuracy·100 = 100)
and a score function bounded in [0, 100], the string resolver returns a
candidate only if that candidate's score is exactly 100, and a left value
all of whose candidates (in particular its best one) score below 100
resolves to no-match. -/
theorem C9_string_exact_accuracy (score : Cell → Cell → ℚ)
    (hb : ∀ x y, 0 ≤ score x y ∧ score x y ≤ 100)
    (m : Cell) (choices : List Cell) (hne : choices ≠ []) :
    (∀ c, stringFuzzyMatch score m choices ((1:ℚ) * 100) = some c →
      score m c = 100) ∧
    ((∀ c ∈ choices, score m c < 100) →
      stringFuzzyMatch score m choices ((1:ℚ) * 100) = none) := by
  match choices, hne with
  | c0 :: cs, _ =>
    have espec := extractOneGo_spec score m cs (c0, score m c0) rfl
    have emem : (extractOneGo score m cs (c0, score m c0)).1 ∈ c0 :: cs := by
      rcases espec.2 with h | h
      · rw [h]; exact List.mem_cons_self _ _
      · exact List.mem_cons_of_mem _ h
    constructor
    · intro c hc
      simp only [stringFuzzyMatch, extractOne] at hc
      split at hc
      case isTrue hge =>
        have hcv : (extractOneGo score m cs (c0, score m c0)).1 = c := by
          simpa using hc
        rw [hcv] at espec
        have h100 : (100:ℚ) ≤ score m c := by
          calc (100:ℚ) = 1 * 100 := by norm_num
            _ ≤ (extractOneGo score m cs (c0, score m c0)).2 := hge
            _ = score m c := espec.1
        exact le_antisymm (hb m c).2 h100
      case isFalse hlt => exact absurd hc (by simp)
    · intro hall
      simp only [stringFuzzyMatch, extractOne]
      rw [if_neg]
      intro hge
      have hlt := hall _ emem
      rw [espec.1] at hge
      linarith [hge]

/-- C9 witness: the theorem applied with the exact-equality scorer at
m = "a" against the single candidate "b". -/
theorem C9_string_exact_accuracy_witness :
    (∀ x y : Cell, 0 ≤ (if x = y then (100:ℚ) else 0) ∧
      (if x = y then (100:ℚ) else 0) ≤ 100) ∧
    ([Cell.str "b"] ≠ ([] : List Cell)) ∧
    ((∀ c, stringFuzzyMatch (fun x y => if x = y then (100:ℚ) else 0)
        (Cell.str "a") [Cell.str "b"] ((1:ℚ) * 100) = some c →
        (if Cell.str "a" = c then (100:ℚ) else 0) = 100) ∧
     ((∀ c ∈ [Cell.str "b"],
        (if Cell.str "a" = c then (100:ℚ) else 0) < 100) →
      stringFuzzyMatch (fun x y => if x = y then (100:ℚ) else 0)
        (Cell.str "a") [Cell.str "b"] ((1:ℚ) * 100) = none)) :=
  ⟨fun x y => by split <;> norm_num,
    by simp,
    C9_string_exact_accuracy (fun x y => if x = y then (100:ℚ) else 0)
      (fun x y => by simp only []; split <;> norm_num)
      (Cell.str "a") [Cell.str "b"] (by simp)⟩

/-! ## Tables and the pandas operations the join engine uses

A `Table` models a pandas DataFrame: named columns, a row index with one
entry per row, and rows of cells.  Column semantic-type metadata (stored in
dataset metadata and read by `_get_column_semantic_type`) is carried in
`colTypes`. -/

structure Table where
  cols : List String
  index : List Cell
  rows : List (List Cell)
  colTypes : List (String × List String)
deriving DecidableEq, Repr

/-- Column access `t[c]`: the cell of each row at the (first) position of
column `c`. -/
def getCol (t : Table) (c : String) : List Cell :=
  t.rows.map (fun row => row.getD (t.cols.indexOf c) Cell.null)

/-- Model of `df.drop(columns=c)`: a new table without column `c`; pandas
raises KeyError when the column is absent. -/
def dropColumn (t : Table) (c : String) : Except PdError Table :=
  if c ∈ t.cols then
    .ok { cols := t.cols.eraseIdx (t.cols.indexOf c)
          index := t.index
          rows := t.rows.map (fun row => row.eraseIdx (t.cols.indexOf c))
          colTypes := t.colTypes }
  else .error (.keyError c)

/-- Model of `df.set_index(c)`: the column's values become the index and
the column leaves the column list. -/
def setIndex (t : Table) (c : String) : Except PdError Table :=
  if c ∈ t.cols then
    .ok { cols := t.cols.eraseIdx (t.cols.indexOf c)
          index := getCol t c
          rows := t.rows.map (fun row => row.eraseIdx (t.cols.indexOf c))
          colTypes := t.colTypes }
  else .error (.keyError c)

/-- Helper for `uniqueFirst`, carrying the set of values already seen. -/
def uniqueFirstAux {α : Type} [DecidableEq α] (seen : List α) :
    List α → List α
  | [] => []
  | c :: rest =>
    if c ∈ seen then uniqueFirstAux seen rest
    else c :: uniqueFirstAux (c :: seen) rest

/-- Model of `Series.unique()`: the distinct values in order of first
occurrence. -/
def uniqueFirst {α : Type} [DecidableEq α] (l : List α) : List α :=
  uniqueFirstAux [] l

/-- Association-list lookup, modelling a Python dict built by inserting
each key once. -/
def alookup {κ α : Type} [DecidableEq κ] : List (κ × α) → κ → Option α
  | [], _ => none
  | (k, v) :: rest, key => if key = k then some v else alookup rest key

/-- A resolver result as an index cell: `None` becomes the null cell. -/
def optionToCell : Option Cell → Cell
  | none => Cell.null
  | some c => c

/-! ## Sorting (`sort_values` / `reset_index`)

pandas sorts ascending by the named column.  Only the resulting ascending
order matters to the claims (pandas' default quicksort is not stable), so
the model sorts with insertion sort under the total order `cellLe` on
cells (null first, then numbers, timestamps and strings, each kind ordered
internally). -/

def cellLe : Cell → Cell → Bool
  | .null, _ => true
  | .num _, .null => false
  | .num a, .num b => decide (a ≤ b)
  | .num _, .dt _ => true
  | .num _, .str _ => true
  | .dt _, .null => false
  | .dt _, .num _ => false
  | .dt a, .dt b => decide (a ≤ b)
  | .dt _, .str _ => true
  | .str _, .null => false
  | .str _, .num _ => false
  | .str _, .dt _ => false
  | .str a, .str b => decide (a ≤ b)

theorem cellLe_total (a b : Cell) : cellLe a b = true ∨ cellLe b a = true := by
  cases a <;> cases b <;> simp [cellLe, decide_eq_true_eq] <;>
    apply le_total

theorem cellLe_trans (a b c : Cell) (hab : cellLe a b = true)
    (hbc : cellLe b c = true) : cellLe a c = true := by
  cases a <;> cases b <;> cases c <;>
    simp_all [cellLe, decide_eq_true_eq] <;>
    exact le_trans hab hbc

/-- The row order used by `sort_values`: compare the key cell at column
position `ki`. -/
def rowPairLe (ki : Nat) (p q : Cell × List Cell) : Prop :=
  cellLe (p.2.getD ki Cell.null) (q.2.getD ki Cell.null) = true

instance (ki : Nat) : DecidableRel (rowPairLe ki) := fun p q =>
  inferInstanceAs (Decidable (_ = true))

instance (ki : Nat) : IsTotal (Cell × List Cell) (rowPairLe ki) :=
  ⟨fun p q => cellLe_total _ _⟩

instance (ki : Nat) : IsTrans (Cell × List Cell) (rowPairLe ki) :=
  ⟨fun p q r => cellLe_trans _ _ _⟩

/-- Model of `df.sort_values(by=[b])` (KeyError when the column is
absent): rows — with their index entries — sorted ascending by the key
column. -/
def sortValues (t : Table) (b : String) : Except PdError Table :=
  if b ∈ t.cols then
    let paired :=
      List.insertionSort (rowPairLe (t.cols.indexOf b)) (t.index.zip t.rows)
    .ok { cols := t.cols
          index := paired.map Prod.fst
          rows := paired.map Prod.snd
          colTypes := t.colTypes }
  else .error (.keyError b)

/-- Model of `df.reset_index(drop=True)`: a dense 0..n−1 row index. -/
def resetIndex (t : Table) : Table :=
  { t with index := (List.range t.rows.length).map (fun n => Cell.num n) }

/-! ## The relational join (`left_df.join(right_df, lsuffix, rsuffix,
how='inner')`)

An inner join on the two indices: for each left row in order, one combined
row per right row carrying an equal index value, keeping the left index as
the result index.  Column names occurring on both sides are suffixed. -/

def joinRowPairs (rpairs : List (Cell × List Cell)) :
    List (Cell × List Cell) → List (Cell × List Cell)
  | [] => []
  | (li, lrow) :: rest =>
    (rpairs.filter (fun p => decide (p.1 = li))).map
        (fun p => (li, lrow ++ p.2)) ++
      joinRowPairs rpairs rest

def innerJoin (l r : Table) : Table :=
  let overlap := l.cols.filter (fun c => decide (c ∈ r.cols))
  let lcols := l.cols.map (fun c => if c ∈ overlap then c ++ "_1" else c)
  let rcols := r.cols.map (fun c => if c ∈ overlap then c ++ "_2" else c)
  let pairs := joinRowPairs (r.index.zip r.rows) (l.index.zip l.rows)
  { cols := lcols ++ rcols
    index := pairs.map Prod.fst
    rows := pairs.map Prod.snd
    colTypes := [] }

/-- The sort-and-reindex tail shared verbatim by `_join_string_col`,
`_join_numeric_col` and `_join_datetime_col`: sort on d3mIndex when the
joined table has that column, otherwise on the left join column, then
re-establish a dense row index. -/
def finishJoin (joined : Table) (leftCol : String) : Except PdError Table :=
  match
    (if "d3mIndex" ∈ joined.cols then sortValues joined "d3mIndex"
     else sortValues joined leftCol) with
  | .error e => .error e
  | .ok s => .ok (resetIndex s)

/-! ## The three join functions

Each returns the joined table together with the final state of the left
table: `fuzzy_join.py` assigns `left_df.index` (and, in numeric mode,
`left_df[left_col]`) in place, so the caller's left table ends the call
re-indexed by the resolved matches. -/

/-- Translation of `_join_string_col` (lines 226-258).  The fuzzy matches
are precomputed per distinct left key into the dict `matches` and looked
up per row; the dict covers every key of the column, so the `.getD none`
fallback of the embedding is never taken. -/
def joinStringCol (score : Cell → Cell → ℚ) (ldf : Table) (leftCol : String)
    (rdf : Table) (rightCol : String) (accuracy : ℚ) :
    Except PdError (Table × Table) :=
  match dropColumn rdf "d3mIndex" with
  | .error e => .error e
  | .ok rdf1 =>
    let leftKeys := uniqueFirst (getCol ldf leftCol)
    let rightKeys := uniqueFirst (getCol rdf1 rightCol)
    let matchDict := leftKeys.map
      (fun k => (k, stringFuzzyMatch score k rightKeys (accuracy * 100)))
    let newIndex := (getCol ldf leftCol).map
      (fun k => optionToCell ((alookup matchDict k).getD none))
    let ldf1 := { ldf with index := newIndex }
    match setIndex rdf1 rightCol with
    | .error e => .error e
    | .ok rdf2 =>
      match finishJoin (innerJoin ldf1 rdf2) leftCol with
      | .error e => .error e
      | .ok joined => .ok (joined, ldf1)

/-- The numeric reading of a cell.  `pd.to_numeric` parsing of numeric
strings is not modelled (no claim depends on it): a numeric column must
already hold `Cell.num` cells. -/
def cellToNum : Cell → Option ℚ
  | .num q => some q
  | _ => none

/-- One row of the in-place write `df[c] = pd.to_numeric(df[c])`: the cell
at the column position is replaced by its numeric conversion (on the
already-numeric cells the embedding models, the conversion is the
identity; an unconvertible cell is left in place, but `toNumericCol` has
already raised in that case). -/
def coerceRow (ki : Nat) (row : List Cell) : List Cell :=
  row.set ki
    (match cellToNum (row.getD ki Cell.null) with
     | some q => Cell.num q
     | none => row.getD ki Cell.null)

/-- Model of `df[c] = pd.to_numeric(df[c])`: the whole column converts (or
the call raises), and the converted column is written back into the table
in place. -/
def toNumericCol (t : Table) (c : String) : Except PdError Table :=
  if c ∈ t.cols then
    if (getCol t c).all (fun cell => (cellToNum cell).isSome) then
      .ok { t with rows := t.rows.map (coerceRow (t.cols.indexOf c)) }
    else .error .parseError
  else .error (.keyError c)

theorem toNumericCol_ok (t : Table) (c : String) (t' : Table)
    (h : toNumericCol t c = .ok t') :
    t'.cols = t.cols ∧ t'.index = t.index ∧ t'.colTypes = t.colTypes ∧
    t'.rows = t.rows.map (coerceRow (t.cols.indexOf c)) := by
  unfold toNumericCol at h
  split at h
  · split at h
    · simp only [Except.ok.injEq] at h
      subst h
      exact ⟨rfl, rfl, rfl, rfl⟩
    · exact absurd h (by simp)
  · exact absurd h (by simp)

/-- Translation of `_join_numeric_col` (lines 277-308).  The numeric
resolver is applied directly per left cell (this mode builds no dict). -/
def joinNumericCol (ldf : Table) (leftCol : String) (rdf : Table)
    (rightCol : String) (accuracy : ℚ) : Except PdError (Table × Table) :=
  match dropColumn rdf "d3mIndex" with
  | .error e => .error e
  | .ok rdf1 =>
    match toNumericCol rdf1 rightCol with
    | .error e => .error e
    | .ok rdf2 =>
      let choices := (uniqueFirst (getCol rdf2 rightCol)).filterMap cellToNum
      match toNumericCol ldf leftCol with
      | .error e => .error e
      | .ok ldf1 =>
        let newIndex := (getCol ldf1 leftCol).map (fun cell =>
          match cellToNum cell with
          | some q =>
            optionToCell ((numericFuzzyMatch q choices accuracy).map Cell.num)
          | none => Cell.null)
        let ldf2 := { ldf1 with index := newIndex }
        match setIndex rdf2 rightCol with
        | .error e => .error e
        | .ok rdf3 =>
          match finishJoin (innerJoin ldf2 rdf3) leftCol with
          | .error e => .error e
          | .ok joined => .ok (joined, ldf2)

/-- Parse a list of cells as timestamps with the external
`dateutil.parser.parse` collaborator, failing as the library raises. -/
def parseAll (parse : Cell → Option ℚ) : List Cell → Except PdError (List ℚ)
  | [] => .ok []
  | c :: rest =>
    match parse c with
    | none => .error .parseError
    | some q =>
      match parseAll parse rest with
      | .error e => .error e
      | .ok qs => .ok (q :: qs)

/-- Translation of `_join_datetime_col` (lines 310-341).  The left index
receives parsed-timestamp (or null) entries; pandas coerces the raw right
index to timestamps when joining it against the left datetime index (the
repository's datetime join test relies on this), so the right index is
modelled as the parsed join column. -/
def joinDatetimeCol (parse : Cell → Option ℚ) (ldf : Table)
    (leftCol : String) (rdf : Table) (rightCol : String) (accuracy : ℚ) :
    Except PdError (Table × Table) :=
  match dropColumn rdf "d3mIndex" with
  | .error e => .error e
  | .ok rdf1 =>
    match parseAll parse (uniqueFirst (getCol rdf1 rightCol)) with
    | .error e => .error e
    | .ok choices =>
      match parseAll parse (getCol ldf leftCol) with
      | .error e => .error e
      | .ok leftKeys =>
        let tol := timeTolerance accuracy leftKeys choices
        let newIndex := leftKeys.map (fun dtv =>
          optionToCell ((datetimeFuzzyMatch dtv choices tol).map Cell.dt))
        let ldf1 := { ldf with index := newIndex }
        match setIndex rdf1 rightCol with
        | .error e => .error e
        | .ok rdf2 =>
          match parseAll parse (getCol rdf1 rightCol) with
          | .error e => .error e
          | .ok rightTimes =>
            let rdf3 := { rdf2 with index := rightTimes.map Cell.dt }
            match finishJoin (innerJoin ldf1 rdf3) leftCol with
            | .error e => .error e
            | .ok joined => .ok (joined, ldf1)

/-! ## Type selector (`_get_join_semantic_type`, lines 171-212) and
`produce` (lines 102-147)

The Python type sets are hash sets; `list(set_intersection)[0]` picks an
unspecified (but per-run deterministic) element.  The model uses lists in
declaration order and picks the first common element; the claims do not
depend on which common element is picked. -/

def STRING_JOIN_TYPES : List String :=
  ["https://metadata.datadrivendiscovery.org/types/CategoricalData",
   "http://schema.org/Text",
   "http://schema.org/Boolean"]

def NUMERIC_JOIN_TYPES : List String :=
  ["http://schema.org/Integer", "http://schema.org/Float"]

def DATETIME_JOIN_TYPES : List String :=
  ["http://schema.org/DateTime"]

def SUPPORTED_TYPES : List String :=
  STRING_JOIN_TYPES ++ NUMERIC_JOIN_TYPES ++ DATETIME_JOIN_TYPES

def listInter (a b : List String) : List String :=
  a.filter (fun x => decide (x ∈ b))

/-- Model of `_get_column_semantic_type`: the semantic-type tags of the
first column with the given name, or none. -/
def getColumnSemanticType (t : Table) (colName : String) : List String :=
  (alookup t.colTypes colName).getD []

/-- Translation of `_get_join_semantic_type`: exact common supported type,
else numeric coercion (Float), else string coercion (Text), else `none`. -/
def getJoinSemanticType (ldf : Table) (leftCol : String) (rdf : Table)
    (rightCol : String) : Option String :=
  let leftTypes := getColumnSemanticType ldf leftCol
  let rightTypes := getColumnSemanticType rdf rightCol
  let supportedLeft := listInter leftTypes SUPPORTED_TYPES
  let supportedRight := listInter rightTypes SUPPORTED_TYPES
  let joinTypes := listInter supportedLeft supportedRight
  let joinTypes :=
    if joinTypes = [] then
      if listInter leftTypes NUMERIC_JOIN_TYPES ≠ [] ∧
          listInter rightTypes NUMERIC_JOIN_TYPES ≠ [] then
        ["http://schema.org/Float"]
      else if listInter leftTypes STRING_JOIN_TYPES ≠ [] ∧
          listInter rightTypes STRING_JOIN_TYPES ≠ [] then
        ["http://schema.org/Text"]
      else []
    else joinTypes
  joinTypes.head?

/-- A d3m `Dataset`: named resources, of which
`d3m_base_utils.get_tabular_resource` locates at most one main tabular
resource (an external collaborator, modelled by the `mainResource`
field). -/
structure Dataset where
  resources : List (String × Table)
  mainResource : Option String
deriving DecidableEq, Repr

def getTabularResource (d : Dataset) : Option (String × Table) :=
  match d.mainResource with
  | none => none
  | some rid =>
    match alookup d.resources rid with
    | none => none
    | some t => some (rid, t)

/-- The errors `produce` raises.  The source raises
`InvalidArgumentValueError` in all four situations; the constructors keep
the distinct messages distinguishable. -/
inductive ProduceError where
  | noTabularResource (isLeft : Bool)
  | accuracyOutOfRange (accuracy : ℚ)
  | unsupportedJoinType (t : Option String)
  | pandas (e : PdError)
deriving DecidableEq, Repr

/-- Translation of `produce`: extract the two tabular resources (each
failing with its own error), then validate the accuracy hyperparameter,
then dispatch on the join semantic type, and finally substitute the joined
table for the left main resource, passing every other resource through. -/
def produce (score : Cell → Cell → ℚ) (parse : Cell → Option ℚ)
    (left right : Dataset) (leftCol rightCol : String) (accuracy : ℚ) :
    Except ProduceError Dataset :=
  match getTabularResource left with
  | none => .error (.noTabularResource true)
  | some (leftResourceId, leftDf) =>
    match getTabularResource right with
    | none => .error (.noTabularResource false)
    | some (_, rightDf) =>
      if accuracy ≤ 0 ∨ 1 < accuracy then .error (.accuracyOutOfRange accuracy)
      else
        let joinType := getJoinSemanticType leftDf leftCol rightDf rightCol
        let dispatch : Except ProduceError Table :=
          match joinType with
          | some t =>
            if t ∈ STRING_JOIN_TYPES then
              match joinStringCol score leftDf leftCol rightDf rightCol accuracy with
              | .error e => .error (.pandas e)
              | .ok p => .ok p.1
            else if t ∈ NUMERIC_JOIN_TYPES then
              match joinNumericCol leftDf leftCol rightDf rightCol accuracy with
              | .error e => .error (.pandas e)
              | .ok p => .ok p.1
            else if t ∈ DATETIME_JOIN_TYPES then
              match joinDatetimeCol parse leftDf leftCol rightDf rightCol accuracy with
              | .error e => .error (.pandas e)
              | .ok p => .ok p.1
            else .error (.unsupportedJoinType (some t))
          | none => .error (.unsupportedJoinType none)
        match dispatch with
        | .error e => .error e
        | .ok joined =>
          .ok { resources := left.resources.map
                  (fun p => if p.1 = leftResourceId then (p.1, joined) else p)
                mainResource := left.mainResource }

/-! ## Structural lemmas about the table operations -/

theorem alookup_map_self {α : Type} (f : Cell → α) (keys : List Cell)
    (k : Cell) (hk : k ∈ keys) :
    alookup (keys.map (fun x => (x, f x))) k = some (f k) := by
  induction keys with
  | nil => exact absurd hk (by simp)
  | cons k0 ks ih =>
    simp only [List.map_cons, alookup]
    by_cases hkk : k = k0
    · subst hkk; simp
    · rw [if_neg hkk]
      refine ih ?_
      rcases List.mem_cons.mp hk with h | h
      · exact absurd h hkk
      · exact h

theorem mem_uniqueFirstAux {α : Type} [DecidableEq α] (l : List α) :
    ∀ (seen : List α) (x : α), x ∈ l →
    x ∈ seen ∨ x ∈ uniqueFirstAux seen l := by
  induction l with
  | nil => intro seen x hx; exact absurd hx (by simp)
  | cons c cs ih =>
    intro seen x hx
    simp only [uniqueFirstAux]
    by_cases hc : c ∈ seen
    · rw [if_pos hc]
      rcases List.mem_cons.mp hx with hxc | hxcs
      · subst hxc; exact Or.inl hc
      · exact ih seen x hxcs
    · rw [if_neg hc]
      rcases List.mem_cons.mp hx with hxc | hxcs
      · subst hxc; exact Or.inr (List.mem_cons_self _ _)
      · rcases ih (c :: seen) x hxcs with hse | hu
        · rcases List.mem_cons.mp hse with hxc | hxseen
          · subst hxc; exact Or.inr (List.mem_cons_self _ _)
          · exact Or.inl hxseen
        · exact Or.inr (List.mem_cons_of_mem _ hu)

theorem mem_uniqueFirst {α : Type} [DecidableEq α] (l : List α) (x : α)
    (hx : x ∈ l) : x ∈ uniqueFirst l := by
  rcases mem_uniqueFirstAux l [] x hx with h | h
  · exact absurd h (by simp)
  · exact h

theorem sortValues_ok (t : Table) (b : String) (s : Table)
    (h : sortValues t b = .ok s) :
    s.cols = t.cols ∧ s.colTypes = t.colTypes ∧
    List.Pairwise (fun a b => cellLe a b = true) (getCol s b) := by
  unfold sortValues at h
  split at h
  case isTrue hb =>
    simp only [Except.ok.injEq] at h
    subst h
    refine ⟨rfl, rfl, ?_⟩
    have hsorted := List.sorted_insertionSort (rowPairLe (t.cols.indexOf b))
      (t.index.zip t.rows)
    unfold getCol
    simp only [List.map_map]
    exact List.Pairwise.map _ (fun p q hpq => hpq) hsorted
  case isFalse hb => exact absurd h (by simp)

theorem getCol_resetIndex (t : Table) (c : String) :
    getCol (resetIndex t) c = getCol t c := rfl

/-- The property C8 asserts of every joined result: the sort key column
(d3mIndex when present, the left join column otherwise) is non-decreasing
under the cell order, and the row index is the dense 0..n−1 range. -/
def sortedDense (j : Table) (leftCol : String) : Prop :=
  List.Pairwise (fun a b => cellLe a b = true)
    (getCol j (if "d3mIndex" ∈ j.cols then "d3mIndex" else leftCol)) ∧
  j.index = (List.range j.rows.length).map (fun n => Cell.num n)

theorem finishJoin_ok (joined : Table) (leftCol : String) (j : Table)
    (h : finishJoin joined leftCol = .ok j) : sortedDense j leftCol := by
  unfold finishJoin at h
  by_cases hin : "d3mIndex" ∈ joined.cols
  · rw [if_pos hin] at h
    cases hsort : sortValues joined "d3mIndex" with
    | error e => rw [hsort] at h; exact absurd h (by simp)
    | ok s =>
      rw [hsort] at h
      have hj : j = resetIndex s := by cases h; rfl
      subst hj
      obtain ⟨hcols, _, hpair⟩ := sortValues_ok joined "d3mIndex" s hsort
      have hjin : "d3mIndex" ∈ (resetIndex s).cols := by
        show "d3mIndex" ∈ s.cols
        rw [hcols]; exact hin
      refine ⟨?_, rfl⟩
      rw [if_pos hjin, getCol_resetIndex]
      exact hpair
  · rw [if_neg hin] at h
    cases hsort : sortValues joined leftCol with
    | error e => rw [hsort] at h; exact absurd h (by simp)
    | ok s =>
      rw [hsort] at h
      have hj : j = resetIndex s := by cases h; rfl
      subst hj
      obtain ⟨hcols, _, hpair⟩ := sortValues_ok joined leftCol s hsort
      have hjin : "d3mIndex" ∉ (resetIndex s).cols := by
        show "d3mIndex" ∉ s.cols
        rw [hcols]; exact hin
      refine ⟨?_, rfl⟩
      rw [if_neg hjin, getCol_resetIndex]
      exact hpair

/-! ## Inversion of the join functions on success -/

theorem joinStringCol_ok (score : Cell → Cell → ℚ) (ldf : Table)
    (leftCol : String) (rdf : Table) (rightCol : String) (accuracy : ℚ)
    (j l' : Table)
    (h : joinStringCol score ldf leftCol rdf rightCol accuracy = .ok (j, l')) :
    ∃ rdf1 rdf2, dropColumn rdf "d3mIndex" = .ok rdf1 ∧
      setIndex rdf1 rightCol = .ok rdf2 ∧
      l' = { ldf with index := (getCol ldf leftCol).map (fun k =>
        optionToCell ((alookup ((uniqueFirst (getCol ldf leftCol)).map
          (fun x => (x, stringFuzzyMatch score x
            (uniqueFirst (getCol rdf1 rightCol)) (accuracy * 100)))) k).getD
          none)) } ∧
      finishJoin (innerJoin l' rdf2) leftCol = .ok j := by
  unfold joinStringCol at h
  split at h
  case h_1 e heq => exact absurd h (by simp)
  case h_2 rdf1 heq =>
    try dsimp only at h
    split at h
    case h_1 e heq2 => exact absurd h (by simp)
    case h_2 rdf2 heq2 =>
      try dsimp only at h
      split at h
      case h_1 e heq3 => exact absurd h (by simp)
      case h_2 joined heq3 =>
        simp only [Except.ok.injEq, Prod.mk.injEq] at h
        obtain ⟨hj, hl⟩ := h
        subst hj
        subst hl
        exact ⟨rdf1, rdf2, heq, heq2, rfl, heq3⟩

theorem joinNumericCol_ok (ldf : Table) (leftCol : String) (rdf : Table)
    (rightCol : String) (accuracy : ℚ) (j l' : Table)
    (h : joinNumericCol ldf leftCol rdf rightCol accuracy = .ok (j, l')) :
    ∃ rdf1 rdf2 ldf1 rdf3,
      dropColumn rdf "d3mIndex" = .ok rdf1 ∧
      toNumericCol rdf1 rightCol = .ok rdf2 ∧
      toNumericCol ldf leftCol = .ok ldf1 ∧
      setIndex rdf2 rightCol = .ok rdf3 ∧
      l' = { ldf1 with index := (getCol ldf1 leftCol).map (fun cell =>
        match cellToNum cell with
        | some q => optionToCell ((numericFuzzyMatch q
            ((uniqueFirst (getCol rdf2 rightCol)).filterMap cellToNum)
            accuracy).map Cell.num)
        | none => Cell.null) } ∧
      finishJoin (innerJoin l' rdf3) leftCol = .ok j := by
  unfold joinNumericCol at h
  split at h
  case h_1 e heq => exact absurd h (by simp)
  case h_2 rdf1 heq =>
    try dsimp only at h
    split at h
    case h_1 e heq2 => exact absurd h (by simp)
    case h_2 rdf2 heq2 =>
      try dsimp only at h
      split at h
      case h_1 e heq3 => exact absurd h (by simp)
      case h_2 ldf1 heq3 =>
        try dsimp only at h
        split at h
        case h_1 e heq4 => exact absurd h (by simp)
        case h_2 rdf3 heq4 =>
          try dsimp only at h
          split at h
          case h_1 e heq5 => exact absurd h (by simp)
          case h_2 joined heq5 =>
            simp only [Except.ok.injEq, Prod.mk.injEq] at h
            obtain ⟨hj, hl⟩ := h
            subst hj
            subst hl
            exact ⟨rdf1, rdf2, ldf1, rdf3, heq, heq2, heq3, heq4, rfl, heq5⟩

theorem joinDatetimeCol_ok (parse : Cell → Option ℚ) (ldf : Table)
    (leftCol : String) (rdf : Table) (rightCol : String) (accuracy : ℚ)
    (j l' : Table)
    (h : joinDatetimeCol parse ldf leftCol rdf rightCol accuracy =
      .ok (j, l')) :
    ∃ rdf1 choices leftKeys rdf2 rightTimes,
      dropColumn rdf "d3mIndex" = .ok rdf1 ∧
      parseAll parse (uniqueFirst (getCol rdf1 rightCol)) = .ok choices ∧
      parseAll parse (getCol ldf leftCol) = .ok leftKeys ∧
      setIndex rdf1 rightCol = .ok rdf2 ∧
      parseAll parse (getCol rdf1 rightCol) = .ok rightTimes ∧
      l' = { ldf with index := leftKeys.map (fun dtv => optionToCell
        ((datetimeFuzzyMatch dtv choices
          (timeTolerance accuracy leftKeys choices)).map Cell.dt)) } ∧
      finishJoin (innerJoin l' { rdf2 with index := rightTimes.map Cell.dt })
        leftCol = .ok j := by
  unfold joinDatetimeCol at h
  split at h
  case h_1 e heq => exact absurd h (by simp)
  case h_2 rdf1 heq =>
    try dsimp only at h
    split at h
    case h_1 e heq2 => exact absurd h (by simp)
    case h_2 choices heq2 =>
      try dsimp only at h
      split at h
      case h_1 e heq3 => exact absurd h (by simp)
      case h_2 leftKeys heq3 =>
        try dsimp only at h
        split at h
        case h_1 e heq4 => exact absurd h (by simp)
        case h_2 rdf2 heq4 =>
          try dsimp only at h
          split at h
          case h_1 e heq5 => exact absurd h (by simp)
          case h_2 rightTimes heq5 =>
            try dsimp only at h
            split at h
            case h_1 e heq6 => exact absurd h (by simp)
            case h_2 joined heq6 =>
              simp only [Except.ok.injEq, Prod.mk.injEq] at h
              obtain ⟨hj, hl⟩ := h
              subst hj
              subst hl
              exact ⟨rdf1, choices, leftKeys, rdf2, rightTimes,
                heq, heq2, heq3, heq4, heq5, rfl, heq6⟩

/-- The number of right rows whose index entry equals `key`: the
multiplicity with which a left row keyed `key` appears in the inner
join. -/
def rightMultiplicity (r : Table) (key : Cell) : Nat :=
  ((r.index.zip r.rows).filter (fun p => decide (p.1 = key))).length

theorem joinRowPairs_length (rpairs : List (Cell × List Cell)) :
    ∀ lpairs : List (Cell × List Cell),
    (joinRowPairs rpairs lpairs).length =
      (lpairs.map (fun lp =>
        (rpairs.filter (fun p => decide (p.1 = lp.1))).length)).sum := by
  intro lpairs
  induction lpairs with
  | nil => rfl
  | cons lp rest ih =>
    obtain ⟨li, lrow⟩ := lp
    simp only [joinRowPairs, List.length_append, List.length_map,
      List.map_cons, List.sum_cons, ih]

theorem innerJoin_count (l r : Table) :
    ((innerJoin l r).index.zip (innerJoin l r).rows).length =
      ((l.index.zip l.rows).map (fun lp => rightMultiplicity r lp.1)).sum := by
  dsimp only [innerJoin]
  rw [List.length_zip, List.length_map, List.length_map, Nat.min_self]
  exact joinRowPairs_length _ _

theorem sortValues_rows_length (t : Table) (b : String) (s : Table)
    (h : sortValues t b = .ok s) :
    s.rows.length = (t.index.zip t.rows).length := by
  unfold sortValues at h
  split at h
  · simp only [Except.ok.injEq] at h
    subst h
    simp only [List.length_map]
    exact (List.perm_insertionSort _ _).length_eq
  · exact absurd h (by simp)

theorem finishJoin_rows_length (joined : Table) (leftCol : String)
    (j : Table) (h : finishJoin joined leftCol = .ok j) :
    j.rows.length = (joined.index.zip joined.rows).length := by
  unfold finishJoin at h
  split at h
  case h_1 e heq => exact absurd h (by simp)
  case h_2 s heq =>
    have hj : j = resetIndex s := by
      simp only [Except.ok.injEq] at h
      exact h.symm
    subst hj
    show s.rows.length = _
    split at heq
    · exact sortValues_rows_length joined "d3mIndex" s heq
    · exact sortValues_rows_length joined leftCol s heq

theorem rightMultiplicity_null (r : Table) (h : Cell.null ∉ r.index) :
    rightMultiplicity r Cell.null = 0 := by
  unfold rightMultiplicity
  rw [List.length_eq_zero, List.filter_eq_nil_iff]
  intro p hp
  simp only [decide_eq_true_eq]
  intro hp1
  exact h (hp1 ▸ (List.of_mem_zip hp).1)

/-- The string join's mutated left table, characterised: columns, rows and
metadata survive and the index is the per-row resolved match (the memoized
dict lookup agreeing with direct resolution for every key of the
column). -/
theorem joinStringCol_index (score : Cell → Cell → ℚ) (ldf : Table)
    (leftCol : String) (rdf : Table) (rightCol : String) (accuracy : ℚ)
    (j l' : Table)
    (h : joinStringCol score ldf leftCol rdf rightCol accuracy = .ok (j, l')) :
    ∃ rdf1 rdf2, dropColumn rdf "d3mIndex" = .ok rdf1 ∧
      setIndex rdf1 rightCol = .ok rdf2 ∧
      l'.cols = ldf.cols ∧ l'.rows = ldf.rows ∧ l'.colTypes = ldf.colTypes ∧
      l'.index = (getCol ldf leftCol).map (fun k => optionToCell
        (stringFuzzyMatch score k (uniqueFirst (getCol rdf1 rightCol))
          (accuracy * 100))) ∧
      finishJoin (innerJoin l' rdf2) leftCol = .ok j := by
  obtain ⟨rdf1, rdf2, hdrop, hset, hl, hfin⟩ :=
    joinStringCol_ok score ldf leftCol rdf rightCol accuracy j l' h
  subst hl
  refine ⟨rdf1, rdf2, hdrop, hset, rfl, rfl, rfl, ?_, hfin⟩
  apply List.map_congr_left
  intro k hk
  have hk' : k ∈ uniqueFirst (getCol ldf leftCol) := mem_uniqueFirst _ _ hk
  rw [alookup_map_self
    (fun x => stringFuzzyMatch score x (uniqueFirst (getCol rdf1 rightCol))
      (accuracy * 100)) _ k hk']
  rfl

/-- C8: for every successful join in any of the three modes, the result
table is sorted ascending (non-decreasing under the cell order) on
d3mIndex when present and on the left join column otherwise, and carries
a dense 0..n−1 row index. -/
theorem C8_result_sorted (score : Cell → Cell → ℚ)
    (parse : Cell → Option ℚ) (ldf : Table) (leftCol : String) (rdf : Table)
    (rightCol : String) (accuracy : ℚ) :
    (∀ j l', joinStringCol score ldf leftCol rdf rightCol accuracy =
      .ok (j, l') → sortedDense j leftCol) ∧
    (∀ j l', joinNumericCol ldf leftCol rdf rightCol accuracy =
      .ok (j, l') → sortedDense j leftCol) ∧
    (∀ j l', joinDatetimeCol parse ldf leftCol rdf rightCol accuracy =
      .ok (j, l') → sortedDense j leftCol) := by
  refine ⟨?_, ?_, ?_⟩ <;> intro j l' h
  · obtain ⟨rdf1, rdf2, _, _, _, hfin⟩ :=
      joinStringCol_ok score ldf leftCol rdf rightCol accuracy j l' h
    exact finishJoin_ok _ _ _ hfin
  · obtain ⟨rdf1, rdf2, ldf1, rdf3, _, _, _, _, _, hfin⟩ :=
      joinNumericCol_ok ldf leftCol rdf rightCol accuracy j l' h
    exact finishJoin_ok _ _ _ hfin
  · obtain ⟨rdf1, choices, leftKeys, rdf2, rightTimes, _, _, _, _, _, _, hfin⟩ :=
      joinDatetimeCol_ok parse ldf leftCol rdf rightCol accuracy j l' h
    exact finishJoin_ok _ _ _ hfin

/-- C10: the right table's d3mIndex column is removed unconditionally by
all three join functions, so a right table without a d3mIndex column makes
every join raise KeyError instead of producing a joined table — an
undocumented precondition of every join. -/
theorem C10_right_d3mIndex_required (score : Cell → Cell → ℚ)
    (parse : Cell → Option ℚ) (ldf : Table) (leftCol : String) (rdf : Table)
    (rightCol : String) (accuracy : ℚ) (h : "d3mIndex" ∉ rdf.cols) :
    joinStringCol score ldf leftCol rdf rightCol accuracy =
      .error (.keyError "d3mIndex") ∧
    joinNumericCol ldf leftCol rdf rightCol accuracy =
      .error (.keyError "d3mIndex") ∧
    joinDatetimeCol parse ldf leftCol rdf rightCol accuracy =
      .error (.keyError "d3mIndex") := by
  have hd : dropColumn rdf "d3mIndex" = .error (.keyError "d3mIndex") := by
    simp [dropColumn, h]
  refine ⟨?_, ?_, ?_⟩
  · simp [joinStringCol, hd]
  · simp [joinNumericCol, hd]
  · simp [joinDatetimeCol, hd]

/-! ## Concrete instances used by counterexamples and witnesses -/

/-- An exact-equality scorer instantiating the fuzzywuzzy parameter. -/
def exScore : Cell → Cell → ℚ := fun x y => if x = y then 100 else 0

/-- A two-timestamp parser instantiating the dateutil parameter. -/
def exParse : Cell → Option ℚ := fun c =>
  match c with
  | Cell.str "t1" => some 1
  | Cell.str "t2" => some 2
  | _ => none

def exL : Table :=
  { cols := ["d3mIndex", "key"], index := [Cell.num 0],
    rows := [[Cell.num 0, Cell.str "a"]], colTypes := [] }

def exR : Table :=
  { cols := ["d3mIndex", "key2"], index := [Cell.num 0],
    rows := [[Cell.num 7, Cell.str "a"]], colTypes := [] }

def exLN : Table :=
  { cols := ["d3mIndex", "nkey"], index := [Cell.num 0],
    rows := [[Cell.num 0, Cell.num 5]], colTypes := [] }

def exRN : Table :=
  { cols := ["d3mIndex", "nkey2"], index := [Cell.num 0],
    rows := [[Cell.num 7, Cell.num (9/2)]], colTypes := [] }

def exLD : Table :=
  { cols := ["d3mIndex", "dkey"], index := [Cell.num 0],
    rows := [[Cell.num 0, Cell.str "t1"]], colTypes := [] }

def exRD : Table :=
  { cols := ["d3mIndex", "dkey2"], index := [Cell.num 0],
    rows := [[Cell.num 7, Cell.str "t2"]], colTypes := [] }

def exC4L : Table :=
  { cols := ["d3mIndex", "key"], index := [Cell.num 0],
    rows := [[Cell.num 0, Cell.str "zzz"]], colTypes := [] }

def exC4R : Table :=
  { cols := ["d3mIndex", "key2"], index := [Cell.num 0],
    rows := [[Cell.num 1, Cell.str "yyy"]], colTypes := [] }

/-- A right table without a d3mIndex column (for C10). -/
def exNoIdxR : Table :=
  { cols := ["key2"], index := [Cell.num 0],
    rows := [[Cell.str "a"]], colTypes := [] }

def exDsL : Dataset := { resources := [("0", exL)], mainResource := some "0" }

def exDsR : Dataset := { resources := [("0", exR)], mainResource := some "0" }

/-- A dataset in which no tabular resource can be located. -/
def exDsEmpty : Dataset := { resources := [], mainResource := none }

/-! ## Claim C2: the accuracy configuration error -/

/-- C2 counterexample: with a left dataset in which no tabular resource
can be located and accuracy = 0 (outside (0,1]), produce raises the
resource-extraction error, not the accuracy configuration error — the
tabular resources are extracted before the accuracy hyperparameter is
validated, so the claimed "configuration error iff accuracy outside
(0,1], before touching either table" fails on this input. -/
theorem C2_resource_extraction_precedes_accuracy_check :
    produce exScore exParse exDsEmpty exDsR "key" "key2" 0 =
      .error (.noTabularResource true) ∧
    ∀ a : ℚ, ProduceError.noTabularResource true ≠ .accuracyOutOfRange a := by
  constructor
  · rfl
  · intro a
    simp

/-- C2 (amended): provided a tabular resource is located in each dataset,
produce raises the accuracy configuration error exactly when accuracy lies
outside (0,1]; the validation happens after resource extraction but before
the type dispatch and any matching work, so no later stage can produce
that error. -/
theorem C2_accuracy_configuration_error (score : Cell → Cell → ℚ)
    (parse : Cell → Option ℚ) (left right : Dataset)
    (leftCol rightCol : String) (accuracy : ℚ)
    (lid : String) (ldf : Table) (rid : String) (rdf : Table)
    (hl : getTabularResource left = some (lid, ldf))
    (hr : getTabularResource right = some (rid, rdf)) :
    produce score parse left right leftCol rightCol accuracy =
      .error (.accuracyOutOfRange accuracy) ↔
    (accuracy ≤ 0 ∨ 1 < accuracy) := by
  unfold produce
  rw [hl, hr]
  dsimp only
  by_cases hacc : accuracy ≤ 0 ∨ 1 < accuracy
  · rw [if_pos hacc]
    simp [hacc]
  · rw [if_neg hacc]
    constructor
    · intro h
      exfalso
      split at h
      next e heq =>
        simp only [Except.error.injEq] at h
        subst h
        repeat any_goals split at heq
        all_goals simp_all
      next joined heq => simp at h
    · intro h
      exact absurd h hacc

/-- C2 witness: the amended theorem applied at concrete datasets with
accuracy 0. -/
theorem C2_accuracy_configuration_error_witness :
    (getTabularResource exDsL = some ("0", exL) ∧
      getTabularResource exDsR = some ("0", exR)) ∧
    (produce exScore exParse exDsL exDsR "key" "key2" 0 =
        .error (.accuracyOutOfRange 0) ↔ ((0:ℚ) ≤ 0 ∨ 1 < (0:ℚ))) :=
  ⟨⟨rfl, rfl⟩,
    C2_accuracy_configuration_error exScore exParse exDsL exDsR
      "key" "key2" 0 "0" exL "0" exR rfl rfl⟩

/-! ## Concrete successful joins (numeric and datetime modes) -/

/-- The joined table of the numeric join of `exLN` and `exRN`. -/
def exJN : Table :=
  { cols := ["d3mIndex", "nkey"], index := [Cell.num 0],
    rows := [[Cell.num 0, Cell.num 5]], colTypes := [] }

/-- The final state of `exLN` after that join. -/
def exLNA : Table :=
  { cols := ["d3mIndex", "nkey"], index := [Cell.num (9/2)],
    rows := [[Cell.num 0, Cell.num 5]], colTypes := [] }

theorem joinNumericCol_exN :
    joinNumericCol exLN "nkey" exRN "nkey2" (9/10) = .ok (exJN, exLNA) := by
  have hc : |(5:ℚ) - 9/2| ≤ 5 * (1 - 9/10) := by norm_num [abs_of_nonneg]
  simp [hc, joinNumericCol, dropColumn, toNumericCol, coerceRow, List.set,
    setIndex, getCol,
    uniqueFirst, uniqueFirstAux, cellToNum, numericFuzzyMatch,
    numericFuzzyMatchGo, optionToCell, innerJoin, joinRowPairs, finishJoin,
    sortValues, resetIndex, exLN, exRN, exJN, exLNA, List.indexOf,
    List.insertionSort, List.orderedInsert, List.eraseIdx, List.findIdx,
    List.findIdx.go, cellLe, rowPairLe, List.range_succ, List.range_zero,
    cond_eq_if, beq_iff_eq, List.getD, abs_of_nonneg, abs_of_nonpos]

/-- The joined table of the datetime join of `exLD` and `exRD` (the only
left timestamp is outside tolerance, so the inner join is empty — a
successful join nonetheless). -/
def exJD : Table :=
  { cols := ["d3mIndex", "dkey"], index := [], rows := [], colTypes := [] }

/-- The final state of `exLD` after that join. -/
def exLDA : Table :=
  { cols := ["d3mIndex", "dkey"], index := [Cell.null],
    rows := [[Cell.num 0, Cell.str "t1"]], colTypes := [] }

theorem joinDatetimeCol_exD :
    joinDatetimeCol exParse exLD "dkey" exRD "dkey2" (1/2) =
      .ok (exJD, exLDA) := by
  have hz : ¬((1:ℚ) - 2 = 0) := by norm_num
  simp [hz, joinDatetimeCol, dropColumn, setIndex, getCol, uniqueFirst,
    uniqueFirstAux, parseAll, exParse, datetimeFuzzyMatch,
    datetimeFuzzyMatchGo, isNewMin, timeTolerance, computeTimeRange,
    npAmin, npAmax, optionToCell, innerJoin, joinRowPairs, finishJoin,
    sortValues, resetIndex, exLD, exRD, exJD, exLDA, List.indexOf,
    List.insertionSort, List.orderedInsert, List.eraseIdx, List.findIdx,
    List.findIdx.go, cellLe, rowPairLe, List.range_succ, List.range_zero,
    cond_eq_if, beq_iff_eq, List.getD]

/-! ## Claim C5: the inputs are not read-only -/

/-- The joined table of the string join of `exL` and `exR`. -/
def exJS : Table :=
  { cols := ["d3mIndex", "key"], index := [Cell.num 0],
    rows := [[Cell.num 0, Cell.str "a"]], colTypes := [] }

/-- The final state of `exL` after that join: its index is overwritten. -/
def exLS : Table :=
  { cols := ["d3mIndex", "key"], index := [Cell.str "a"],
    rows := [[Cell.num 0, Cell.str "a"]], colTypes := [] }

theorem joinStringCol_exL_exR :
    joinStringCol exScore exL "key" exR "key2" 1 = .ok (exJS, exLS) := by
  simp [joinStringCol, dropColumn, setIndex, getCol, uniqueFirst,
    uniqueFirstAux, stringFuzzyMatch, extractOne, extractOneGo, alookup,
    optionToCell, innerJoin, joinRowPairs, finishJoin, sortValues,
    resetIndex, exScore, exL, exR, exJS, exLS, List.indexOf,
    List.insertionSort, List.orderedInsert, List.eraseIdx, List.findIdx,
    List.findIdx.go, cellLe, rowPairLe, List.range_succ, List.range_zero,
    cond_eq_if, beq_iff_eq, List.getD]

/-- C5 counterexample: the claim says the caller's tables are unchanged
after the call, but a successful string join leaves the caller's left
table with its row index overwritten by the resolved match keys: here the
index changes from [num 0] to [str "a"]. -/
theorem C5_left_table_mutated :
    (match joinStringCol exScore exL "key" exR "key2" 1 with
     | .ok p => p.2.index
     | .error _ => exL.index) = [Cell.str "a"] ∧
    exL.index = [Cell.num 0] ∧ [Cell.str "a"] ≠ [Cell.num 0] := by
  rw [joinStringCol_exL_exR]
  exact ⟨rfl, rfl, by simp⟩

/-- C5 (amended): the right table and the scalar inputs are read-only (the
code rebinds its right-table variable to a copy before modifying it), but
the caller's left table is mutated in place in every mode: after a
successful join its columns and metadata are unchanged and its row index
has been overwritten with the per-row resolved match; its row data is
unchanged in string and datetime modes, while in numeric mode the join
column has additionally been re-written in place through the
pd.to_numeric coercion. -/
theorem C5_left_index_overwritten (score : Cell → Cell → ℚ)
    (parse : Cell → Option ℚ) (ldf : Table) (leftCol : String) (rdf : Table)
    (rightCol : String) (accuracy : ℚ) :
    (∀ j l', joinStringCol score ldf leftCol rdf rightCol accuracy =
        .ok (j, l') →
      l'.cols = ldf.cols ∧ l'.rows = ldf.rows ∧ l'.colTypes = ldf.colTypes ∧
      ∃ rdf1, dropColumn rdf "d3mIndex" = .ok rdf1 ∧
        l'.index = (getCol ldf leftCol).map (fun k => optionToCell
          (stringFuzzyMatch score k (uniqueFirst (getCol rdf1 rightCol))
            (accuracy * 100)))) ∧
    (∀ j l', joinNumericCol ldf leftCol rdf rightCol accuracy = .ok (j, l') →
      l'.cols = ldf.cols ∧ l'.colTypes = ldf.colTypes ∧
      l'.rows = ldf.rows.map (coerceRow (ldf.cols.indexOf leftCol)) ∧
      ∃ rdf1 rdf2 ldf1, dropColumn rdf "d3mIndex" = .ok rdf1 ∧
        toNumericCol rdf1 rightCol = .ok rdf2 ∧
        toNumericCol ldf leftCol = .ok ldf1 ∧
        l'.index = (getCol ldf1 leftCol).map (fun cell =>
          match cellToNum cell with
          | some q => optionToCell ((numericFuzzyMatch q
              ((uniqueFirst (getCol rdf2 rightCol)).filterMap cellToNum)
              accuracy).map Cell.num)
          | none => Cell.null)) ∧
    (∀ j l', joinDatetimeCol parse ldf leftCol rdf rightCol accuracy =
        .ok (j, l') →
      l'.cols = ldf.cols ∧ l'.rows = ldf.rows ∧ l'.colTypes = ldf.colTypes ∧
      ∃ rdf1 choices leftKeys, dropColumn rdf "d3mIndex" = .ok rdf1 ∧
        parseAll parse (uniqueFirst (getCol rdf1 rightCol)) = .ok choices ∧
        parseAll parse (getCol ldf leftCol) = .ok leftKeys ∧
        l'.index = leftKeys.map (fun dtv => optionToCell
          ((datetimeFuzzyMatch dtv choices
            (timeTolerance accuracy leftKeys choices)).map Cell.dt))) := by
  refine ⟨?_, ?_, ?_⟩ <;> intro j l' h
  · obtain ⟨rdf1, rdf2, hdrop, hset, hc, hrw, hct, hidx, hfin⟩ :=
      joinStringCol_index score ldf leftCol rdf rightCol accuracy j l' h
    exact ⟨hc, hrw, hct, rdf1, hdrop, hidx⟩
  · obtain ⟨rdf1, rdf2, ldf1, rdf3, hdrop, hrn, hln, hset, hl, hfin⟩ :=
      joinNumericCol_ok ldf leftCol rdf rightCol accuracy j l' h
    obtain ⟨hcols, hindex, hct, hrows⟩ := toNumericCol_ok ldf leftCol ldf1 hln
    subst hl
    exact ⟨hcols, hct, hrows, rdf1, rdf2, ldf1, hdrop, hrn, hln, rfl⟩
  · obtain ⟨rdf1, choices, leftKeys, rdf2, rightTimes,
      hdrop, hpc, hpl, hset, hpr, hl, hfin⟩ :=
      joinDatetimeCol_ok parse ldf leftCol rdf rightCol accuracy j l' h
    subst hl
    exact ⟨rfl, rfl, rfl, rdf1, choices, leftKeys, hdrop, hpc, hpl, rfl⟩

/-- C5 witness: the amended theorem applied to one concrete successful
join per mode (string exL/exR, numeric exLN/exRN, datetime exLD/exRD). -/
theorem C5_left_index_overwritten_witness :
    (exLS.cols = exL.cols ∧ exLS.rows = exL.rows ∧
      exLS.colTypes = exL.colTypes ∧
      ∃ rdf1, dropColumn exR "d3mIndex" = .ok rdf1 ∧
        exLS.index = (getCol exL "key").map (fun k => optionToCell
          (stringFuzzyMatch exScore k (uniqueFirst (getCol rdf1 "key2"))
            ((1:ℚ) * 100)))) ∧
    (exLNA.cols = exLN.cols ∧ exLNA.colTypes = exLN.colTypes ∧
      exLNA.rows = exLN.rows.map (coerceRow (exLN.cols.indexOf "nkey")) ∧
      ∃ rdf1 rdf2 ldf1, dropColumn exRN "d3mIndex" = .ok rdf1 ∧
        toNumericCol rdf1 "nkey2" = .ok rdf2 ∧
        toNumericCol exLN "nkey" = .ok ldf1 ∧
        exLNA.index = (getCol ldf1 "nkey").map (fun cell =>
          match cellToNum cell with
          | some q => optionToCell ((numericFuzzyMatch q
              ((uniqueFirst (getCol rdf2 "nkey2")).filterMap cellToNum)
              (9/10)).map Cell.num)
          | none => Cell.null)) ∧
    (exLDA.cols = exLD.cols ∧ exLDA.rows = exLD.rows ∧
      exLDA.colTypes = exLD.colTypes ∧
      ∃ rdf1 choices leftKeys, dropColumn exRD "d3mIndex" = .ok rdf1 ∧
        parseAll exParse (uniqueFirst (getCol rdf1 "dkey2")) = .ok choices ∧
        parseAll exParse (getCol exLD "dkey") = .ok leftKeys ∧
        exLDA.index = leftKeys.map (fun dtv => optionToCell
          ((datetimeFuzzyMatch dtv choices
            (timeTolerance (1/2) leftKeys choices)).map Cell.dt))) :=
  ⟨(C5_left_index_overwritten exScore exParse exL "key" exR "key2" 1).1
      exJS exLS joinStringCol_exL_exR,
    (C5_left_index_overwritten exScore exParse exLN "nkey" exRN "nkey2"
      (9/10)).2.1 exJN exLNA joinNumericCol_exN,
    (C5_left_index_overwritten exScore exParse exLD "dkey" exRD "dkey2"
      (1/2)).2.2 exJD exLDA joinDatetimeCol_exD⟩

/-! ## Claim C4: no simple exact-match (left outer) mode -/

/-- The joined table of the string join of `exC4L` and `exC4R`: no row of
the left table found a match, and the inner join dropped them all. -/
def exJC4 : Table :=
  { cols := ["d3mIndex", "key"], index := [], rows := [], colTypes := [] }

/-- The final state of `exC4L` after that join. -/
def exLC4 : Table :=
  { cols := ["d3mIndex", "key"], index := [Cell.null],
    rows := [[Cell.num 0, Cell.str "zzz"]], colTypes := [] }

theorem joinStringCol_exC4 :
    joinStringCol exScore exC4L "key" exC4R "key2" 1 = .ok (exJC4, exLC4) := by
  have h100 : ¬((100:ℚ) ≤ 0) := by norm_num
  simp [h100, joinStringCol, dropColumn, setIndex, getCol, uniqueFirst,
    uniqueFirstAux, stringFuzzyMatch, extractOne, extractOneGo, alookup,
    optionToCell, innerJoin, joinRowPairs, finishJoin, sortValues,
    resetIndex, exScore, exC4L, exC4R, exJC4, exLC4, List.indexOf,
    List.insertionSort, List.orderedInsert, List.eraseIdx, List.findIdx,
    List.findIdx.go, cellLe, rowPairLe, List.range_succ, List.range_zero,
    cond_eq_if, beq_iff_eq, List.getD]

/-- C4 counterexample: the claim's left-outer reading demands every left
row appear exactly once in the output (with null right fields when
unmatched), but the engine's only exact-like mode — the string join, here
at accuracy 1.0 — joins inner: with one unmatched left row the joined
result has no rows at all. -/
theorem C4_no_left_outer_mode :
    (match joinStringCol exScore exC4L "key" exC4R "key2" 1 with
     | .ok p => p.1.rows.length
     | .error _ => 99) = 0 ∧ exC4L.rows.length = 1 := by
  rw [joinStringCol_exC4]
  exact ⟨rfl, rfl⟩

/-- C4 (amended): the join engine has no simple exact-match mode — every
mode (string, numeric, datetime) re-keys the left rows by their resolved
fuzzy match and joins inner: a successful join returns exactly one output
row per (left row, right row) pair with equal keys, so each left row
contributes the multiplicity of its resolved key among the right index
entries; a left row whose key resolves to no match carries the null key,
whose multiplicity is zero whenever the right index has no null entry
(always so in datetime mode) — that row is dropped from the output rather
than kept once with null right-side fields. -/
theorem C4_inner_join_drops_unmatched (score : Cell → Cell → ℚ)
    (parse : Cell → Option ℚ) (ldf : Table) (leftCol : String) (rdf : Table)
    (rightCol : String) (accuracy : ℚ) :
    (∀ j l', joinStringCol score ldf leftCol rdf rightCol accuracy =
        .ok (j, l') →
      ∃ rdf1 rdf2, dropColumn rdf "d3mIndex" = .ok rdf1 ∧
        setIndex rdf1 rightCol = .ok rdf2 ∧
        l'.index = (getCol ldf leftCol).map (fun k => optionToCell
          (stringFuzzyMatch score k (uniqueFirst (getCol rdf1 rightCol))
            (accuracy * 100))) ∧
        j.rows.length = ((l'.index.zip l'.rows).map
          (fun lp => rightMultiplicity rdf2 lp.1)).sum ∧
        (Cell.null ∉ rdf2.index → rightMultiplicity rdf2 Cell.null = 0)) ∧
    (∀ j l', joinNumericCol ldf leftCol rdf rightCol accuracy = .ok (j, l') →
      ∃ rdf1 rdf2 ldf1 rdf3, dropColumn rdf "d3mIndex" = .ok rdf1 ∧
        toNumericCol rdf1 rightCol = .ok rdf2 ∧
        toNumericCol ldf leftCol = .ok ldf1 ∧
        setIndex rdf2 rightCol = .ok rdf3 ∧
        l'.index = (getCol ldf1 leftCol).map (fun cell =>
          match cellToNum cell with
          | some q => optionToCell ((numericFuzzyMatch q
              ((uniqueFirst (getCol rdf2 rightCol)).filterMap cellToNum)
              accuracy).map Cell.num)
          | none => Cell.null) ∧
        j.rows.length = ((l'.index.zip l'.rows).map
          (fun lp => rightMultiplicity rdf3 lp.1)).sum ∧
        (Cell.null ∉ rdf3.index → rightMultiplicity rdf3 Cell.null = 0)) ∧
    (∀ j l', joinDatetimeCol parse ldf leftCol rdf rightCol accuracy =
        .ok (j, l') →
      ∃ rdf1 choices leftKeys rdf2 rightTimes,
        dropColumn rdf "d3mIndex" = .ok rdf1 ∧
        parseAll parse (uniqueFirst (getCol rdf1 rightCol)) = .ok choices ∧
        parseAll parse (getCol ldf leftCol) = .ok leftKeys ∧
        setIndex rdf1 rightCol = .ok rdf2 ∧
        parseAll parse (getCol rdf1 rightCol) = .ok rightTimes ∧
        l'.index = leftKeys.map (fun dtv => optionToCell
          ((datetimeFuzzyMatch dtv choices
            (timeTolerance accuracy leftKeys choices)).map Cell.dt)) ∧
        j.rows.length = ((l'.index.zip l'.rows).map (fun lp =>
          rightMultiplicity { rdf2 with index := rightTimes.map Cell.dt }
            lp.1)).sum ∧
        rightMultiplicity { rdf2 with index := rightTimes.map Cell.dt }
          Cell.null = 0) := by
  refine ⟨?_, ?_, ?_⟩ <;> intro j l' h
  · obtain ⟨rdf1, rdf2, hdrop, hset, hc, hrw, hct, hidx, hfin⟩ :=
      joinStringCol_index score ldf leftCol rdf rightCol accuracy j l' h
    refine ⟨rdf1, rdf2, hdrop, hset, hidx, ?_,
      fun hnn => rightMultiplicity_null rdf2 hnn⟩
    rw [finishJoin_rows_length _ _ _ hfin, innerJoin_count]
  · obtain ⟨rdf1, rdf2, ldf1, rdf3, hdrop, hrn, hln, hset, hl, hfin⟩ :=
      joinNumericCol_ok ldf leftCol rdf rightCol accuracy j l' h
    subst hl
    refine ⟨rdf1, rdf2, ldf1, rdf3, hdrop, hrn, hln, hset, rfl, ?_,
      fun hnn => rightMultiplicity_null rdf3 hnn⟩
    rw [finishJoin_rows_length _ _ _ hfin, innerJoin_count]
  · obtain ⟨rdf1, choices, leftKeys, rdf2, rightTimes,
      hdrop, hpc, hpl, hset, hpr, hl, hfin⟩ :=
      joinDatetimeCol_ok parse ldf leftCol rdf rightCol accuracy j l' h
    subst hl
    refine ⟨rdf1, choices, leftKeys, rdf2, rightTimes,
      hdrop, hpc, hpl, hset, hpr, rfl, ?_, ?_⟩
    · rw [finishJoin_rows_length _ _ _ hfin, innerJoin_count]
    · exact rightMultiplicity_null _ (by simp)

/-- C4 witness: the amended theorem applied to one concrete join per
mode — string with an unmatched left row (dropped: zero output rows),
numeric with a matched row (multiplicity one), datetime with the left
timestamp outside tolerance (dropped). -/
theorem C4_inner_join_drops_unmatched_witness :
    (∃ rdf1 rdf2, dropColumn exC4R "d3mIndex" = .ok rdf1 ∧
      setIndex rdf1 "key2" = .ok rdf2 ∧
      exLC4.index = (getCol exC4L "key").map (fun k => optionToCell
        (stringFuzzyMatch exScore k (uniqueFirst (getCol rdf1 "key2"))
          ((1:ℚ) * 100))) ∧
      exJC4.rows.length = ((exLC4.index.zip exLC4.rows).map
        (fun lp => rightMultiplicity rdf2 lp.1)).sum ∧
      (Cell.null ∉ rdf2.index → rightMultiplicity rdf2 Cell.null = 0)) ∧
    (∃ rdf1 rdf2 ldf1 rdf3, dropColumn exRN "d3mIndex" = .ok rdf1 ∧
      toNumericCol rdf1 "nkey2" = .ok rdf2 ∧
      toNumericCol exLN "nkey" = .ok ldf1 ∧
      setIndex rdf2 "nkey2" = .ok rdf3 ∧
      exLNA.index = (getCol ldf1 "nkey").map (fun cell =>
        match cellToNum cell with
        | some q => optionToCell ((numericFuzzyMatch q
            ((uniqueFirst (getCol rdf2 "nkey2")).filterMap cellToNum)
            (9/10)).map Cell.num)
        | none => Cell.null) ∧
      exJN.rows.length = ((exLNA.index.zip exLNA.rows).map
        (fun lp => rightMultiplicity rdf3 lp.1)).sum ∧
      (Cell.null ∉ rdf3.index → rightMultiplicity rdf3 Cell.null = 0)) ∧
    (∃ rdf1 choices leftKeys rdf2 rightTimes,
      dropColumn exRD "d3mIndex" = .ok rdf1 ∧
      parseAll exParse (uniqueFirst (getCol rdf1 "dkey2")) = .ok choices ∧
      parseAll exParse (getCol exLD "dkey") = .ok leftKeys ∧
      setIndex rdf1 "dkey2" = .ok rdf2 ∧
      parseAll exParse (getCol rdf1 "dkey2") = .ok rightTimes ∧
      exLDA.index = leftKeys.map (fun dtv => optionToCell
        ((datetimeFuzzyMatch dtv choices
          (timeTolerance (1/2) leftKeys choices)).map Cell.dt)) ∧
      exJD.rows.length = ((exLDA.index.zip exLDA.rows).map (fun lp =>
        rightMultiplicity { rdf2 with index := rightTimes.map Cell.dt }
          lp.1)).sum ∧
      rightMultiplicity { rdf2 with index := rightTimes.map Cell.dt }
        Cell.null = 0) :=
  ⟨(C4_inner_join_drops_unmatched exScore exParse exC4L "key" exC4R "key2"
      1).1 exJC4 exLC4 joinStringCol_exC4,
    (C4_inner_join_drops_unmatched exScore exParse exLN "nkey" exRN "nkey2"
      (9/10)).2.1 exJN exLNA joinNumericCol_exN,
    (C4_inner_join_drops_unmatched exScore exParse exLD "dkey" exRD "dkey2"
      (1/2)).2.2 exJD exLDA joinDatetimeCol_exD⟩

/-- C8 witness: the theorem applied to one successful join per mode. -/
theorem C8_result_sorted_witness :
    sortedDense exJS "key" ∧ sortedDense exJN "nkey" ∧
    sortedDense exJD "dkey" :=
  ⟨(C8_result_sorted exScore exParse exL "key" exR "key2" 1).1
      exJS exLS joinStringCol_exL_exR,
    (C8_result_sorted exScore exParse exLN "nkey" exRN "nkey2" (9/10)).2.1
      exJN exLNA joinNumericCol_exN,
    (C8_result_sorted exScore exParse exLD "dkey" exRD "dkey2" (1/2)).2.2
      exJD exLDA joinDatetimeCol_exD⟩

/-- C10 witness: the theorem applied to a right table whose columns are
just ["key2"], without d3mIndex. -/
theorem C10_right_d3mIndex_required_witness :
    ("d3mIndex" ∉ exNoIdxR.cols) ∧
    (joinStringCol exScore exL "key" exNoIdxR "key2" 1 =
        .error (.keyError "d3mIndex") ∧
      joinNumericCol exL "key" exNoIdxR "key2" 1 =
        .error (.keyError "d3mIndex") ∧
      joinDatetimeCol exParse exL "key" exNoIdxR "key2" 1 =
        .error (.keyError "d3mIndex")) :=
  ⟨by simp [exNoIdxR],
    C10_right_d3mIndex_required exScore exParse exL "key" exNoIdxR "key2" 1
      (by simp [exNoIdxR])⟩

end FuzzyJoin
